import Mathlib

/-!
Verification of the DeepWiki-to-Markdown converter core
(`code/deepwiki2markdown.py`): diagram reconstructors (flowchart,
sequence, class stub, state), the recursive DOM-to-Markdown converter
`process_node`, and the final whitespace normalisation step.

Numeric attribute values that the Python code holds as `float` are
modelled as exact rationals (`ℚ`); every value appearing in the claims
and examples is exactly representable. Python's `str` is modelled as
Lean `String` / `List Char`; `\d` and whitespace classes are modelled
over ASCII, which covers all identifiers and markup the tool handles.
-/

namespace WpMdWd

/-- The ASCII whitespace characters stripped by Python's `str.strip()`. -/
def isPyWs (c : Char) : Bool :=
  c = ' ' || c = '\t' || c = '\n' || c = '\r' || c = '\x0b' || c = '\x0c'

/-- `str.strip()` on a character list: drop leading and trailing whitespace. -/
def pyStripL (l : List Char) : List Char :=
  ((l.dropWhile isPyWs).reverse.dropWhile isPyWs).reverse

/-- `str.strip()` on a `String`. -/
def pyStrip (s : String) : String :=
  String.mk (pyStripL s.data)

/-- Emission of a finished newline run under
`re.sub(r'\n{3,}', '\n\n', ·)`: runs of three or more newlines become
exactly two, shorter runs are kept. -/
def emitRun (n : Nat) : List Char :=
  if n ≥ 3 then ['\n', '\n'] else List.replicate n '\n'

/-- Scanner for `re.sub(r'\n{3,}', '\n\n', ·)`: `n` counts the pending
newline run. -/
def collapseGo : List Char → Nat → List Char
  | [], n => emitRun n
  | c :: cs, n =>
    if c = '\n' then collapseGo cs (n + 1)
    else emitRun n ++ c :: collapseGo cs 0

/-- `re.sub(r'\n{3,}', '\n\n', ·)` (deepwiki2markdown.py line 807): every
maximal run of three or more newlines is replaced by exactly two. -/
def collapse (l : List Char) : List Char :=
  collapseGo l 0

/-- The Assembler's blank-line normalisation (deepwiki2markdown.py
lines 806-807): `re.sub(r'\n{3,}', '\n\n', markdown.strip())`. -/
def normalizeMd (s : String) : String :=
  String.mk (collapse (pyStripL s.data))

/-- Detects three consecutive newline characters. -/
def hasTriple : List Char → Bool
  | c1 :: c2 :: c3 :: rest =>
    (c1 = '\n' && c2 = '\n' && c3 = '\n') || hasTriple (c2 :: c3 :: rest)
  | _ => false

/-- `re.sub(r'_\d+$', '', s)` (deepwiki2markdown.py lines 172-173): if the
string ends in an underscore followed by one or more digits, remove that
suffix; otherwise leave the string unchanged. -/
def stripNumSuffix (s : String) : String :=
  let r := s.data.reverse
  let ds := r.takeWhile (·.isDigit)
  let rest := r.dropWhile (·.isDigit)
  if ds.isEmpty then s
  else
    match rest with
    | '_' :: rs => String.mk rs.reverse
    | _ => s

/-- `range s n` models Python's `range(s, s + n)`: the `n` integers
starting at `s`. -/
def natRange (s : Nat) : Nat → List Nat
  | 0 => []
  | n + 1 => s :: natRange (s + 1) n

/-- Helper for `splitOnChar`: `acc` holds the current segment reversed. -/
def splitOnCharGo (sep : Char) : List Char → List Char → List (List Char)
  | [], acc => [acc.reverse]
  | c :: cs, acc =>
    if c = sep then acc.reverse :: splitOnCharGo sep cs []
    else splitOnCharGo sep cs (c :: acc)

/-- Python `s.split(sep)` for a one-character separator. -/
def splitOnChar (sep : Char) (l : List Char) : List (List Char) :=
  splitOnCharGo sep l []

/-- Python `sep.join(...)` for a one-character separator. -/
def joinSepChar (sep : Char) : List (List Char) → List Char
  | [] => []
  | [x] => x
  | x :: xs => x ++ sep :: joinSepChar sep xs

/-- `path_id[2:].split('_')` (deepwiki2markdown.py line 162). -/
def splitUnderscore (s : String) : List String :=
  (splitOnChar '_' (s.data.drop 2)).map String.mk

/-- `'_'.join(parts)` (deepwiki2markdown.py lines 168-169). -/
def joinUnderscore (ps : List String) : String :=
  String.mk (joinSepChar '_' (ps.map String.data))

/-- Python `path_id.startswith('L_')` (deepwiki2markdown.py line 159). -/
def startsWithL (s : String) : Bool :=
  ['L', '_'].isPrefixOf s.data

/-- `'_'.join(parts[:i])` with the trailing numeric suffix stripped
(deepwiki2markdown.py lines 168, 172). -/
def edgeSource (parts : List String) (i : Nat) : String :=
  stripNumSuffix (joinUnderscore (parts.take i))

/-- `'_'.join(parts[i:])` with the trailing numeric suffix stripped
(deepwiki2markdown.py lines 169, 173). -/
def edgeTarget (parts : List String) (i : Nat) : String :=
  stripNumSuffix (joinUnderscore (parts.drop i))

/-- One iteration of the split-point loop (deepwiki2markdown.py
lines 167-177): succeed iff both halves are known node ids. -/
def trySplit (nodeIds : List String) (parts : List String) (i : Nat) :
    Option (String × String) :=
  if nodeIds.contains (edgeSource parts i) && nodeIds.contains (edgeTarget parts i) then
    some (edgeSource parts i, edgeTarget parts i)
  else
    none

/-- Edge-id resolution (deepwiki2markdown.py lines 158-177): ids not
starting with `L_` are skipped; otherwise the remainder is split on `_`
and split points `i = 1 .. len(parts)-1` are tried in order, the first
success winning (the loop `break`). -/
def resolveEdgeId (nodeIds : List String) (pathId : String) :
    Option (String × String) :=
  if startsWithL pathId then
    let parts := splitUnderscore pathId
    (natRange 1 (parts.length - 1)).findSome? (trySplit nodeIds parts)
  else
    none

/-- The edge list built by the flowchart reconstructor
(deepwiki2markdown.py lines 156-177): one `source --> target` line per
resolvable path id, unresolvable ids contributing nothing. -/
def collectEdges (nodeIds : List String) (pathIds : List String) : List String :=
  pathIds.filterMap fun pid =>
    (resolveEdgeId nodeIds pid).map fun st => st.1 ++ " --> " ++ st.2

/-- Substring test, Python's `pat in s` (over character lists). -/
def isInfixL (pat : List Char) : List Char → Bool
  | [] => pat.isEmpty
  | c :: rest => pat.isPrefixOf (c :: rest) || isInfixL pat rest

/-! ### Stable sorting (Python's `sorted` with a key) -/

/-- Stable insertion of `x` before the first element with a key not
smaller than `key x`. -/
def insLe {β γ : Type} [LinearOrder γ] (key : β → γ) (x : β) :
    List β → List β
  | [] => [x]
  | y :: ys => if key x ≤ key y then x :: y :: ys else y :: insLe key x ys

/-- Python's `sorted(l, key=key)`: stable ascending sort. -/
def sortByKey {β γ : Type} [LinearOrder γ] (key : β → γ) (l : List β) :
    List β :=
  l.foldr (insLe key) []

/-! ### Flowchart clusters (deepwiki2markdown.py lines 46-153)

The Python code stores geometry as `float`; here coordinates live in an
arbitrary linear ordered commutative ring `α` (so the results cover both
`ℚ`, which represents every float value the claims involve exactly, and
`ℤ` for concrete evaluation). -/

/-- A bounding box `(x1, y1, x2, y2)` as stored in `clusters[..]['rect']`
(deepwiki2markdown.py line 81). -/
structure Rect (α : Type) where
  x1 : α
  y1 : α
  x2 : α
  y2 : α
deriving DecidableEq

variable {α : Type} [LinearOrderedCommRing α]

/-- Box containment as tested in deepwiki2markdown.py lines 96-97:
`x1_i <= x1_j and y1_i <= y1_j and x2_i >= x2_j and y2_i >= y2_j`. -/
def containsR (a b : Rect α) : Bool :=
  a.x1 ≤ b.x1 && a.y1 ≤ b.y1 && a.x2 ≥ b.x2 && a.y2 ≥ b.y2

/-- Cluster area, the sort key of deepwiki2markdown.py lines 117-120. -/
def areaR (r : Rect α) : α :=
  (r.x2 - r.x1) * (r.y2 - r.y1)

/-- A numeric SVG attribute as seen by `float(elem.get(name, 0))`:
missing attributes default to `0`, present attributes either parse to a
number or make `float` raise. -/
inductive NumAttr (α : Type) where
  | absent : NumAttr α
  | bad : NumAttr α
  | val : α → NumAttr α
deriving DecidableEq

/-- `float(elem.get(name, 0))` (deepwiki2markdown.py lines 70-73): `none`
models the `ValueError` caught by the surrounding `except`. -/
def parseNum [Zero α] : NumAttr α → Option α
  | .absent => some 0
  | .bad => none
  | .val q => some q

/-- A `g.cluster` element as read by the flowchart reconstructor:
id, title and the (optional) `rect` child's geometry attributes. -/
structure ClusterIn (α : Type) where
  id : String
  title : String
  rectAttrs : Option (NumAttr α × NumAttr α × NumAttr α × NumAttr α)

/-- A resolved cluster record (deepwiki2markdown.py lines 77-83), before
nodes and children are attached. -/
structure Cluster (α : Type) where
  id : String
  title : String
  rect : Rect α
deriving DecidableEq

/-- Geometry resolution of one cluster (deepwiki2markdown.py lines
64-83): a missing `rect` or an unparsable numeric attribute skips the
cluster (`continue` after the caught `ValueError`). -/
def parseCluster (c : ClusterIn α) : Option (Cluster α) :=
  match c.rectAttrs with
  | none => none
  | some (ax, ay, aw, ah) =>
    match parseNum ax, parseNum ay, parseNum aw, parseNum ah with
    | some x, some y, some w, some h =>
      some ⟨c.id, c.title, ⟨x, y, x + w, y + h⟩⟩
    | _, _, _, _ => none

/-- The cluster collection loop (deepwiki2markdown.py lines 50-83). -/
def collectClusters (cs : List (ClusterIn α)) : List (Cluster α) :=
  cs.filterMap parseCluster

/-- The direct-children computation (deepwiki2markdown.py lines 85-113):
`cj` is a direct child of `ci` iff `ci` contains `cj` and no third
cluster `ck` sits strictly between them. -/
def directChildren (cs : List (Cluster α)) (ci : Cluster α) : List String :=
  (cs.filter fun cj =>
    cj.id ≠ ci.id && containsR ci.rect cj.rect &&
      !(cs.any fun ck =>
        ck.id ≠ ci.id && ck.id ≠ cj.id &&
          containsR ck.rect cj.rect && containsR ci.rect ck.rect)).map (·.id)

/-- A flowchart node that survived coordinate extraction
(deepwiki2markdown.py lines 140-149): canonical id and the `translate`
offset. -/
structure NodePos (α : Type) where
  id : String
  x : α
  y : α

/-- `x1 <= node_x <= x2 and y1 <= node_y <= y2`
(deepwiki2markdown.py line 150). -/
def inRect (r : Rect α) (x y : α) : Bool :=
  r.x1 ≤ x && x ≤ r.x2 && r.y1 ≤ y && y ≤ r.y2

/-- First-match association-list lookup (a Python dict read). -/
def alookup (k : String) : List (String × List String) → Option (List String)
  | [] => none
  | (k', v) :: rest => if k' = k then some v else alookup k rest

/-- The member list one cluster collects on its turn
(deepwiki2markdown.py lines 122-153): every node whose coordinates lie
in the cluster's box and which is not already in the member list of one
of the cluster's direct children. -/
def membersFor (cs : List (Cluster α)) (ns : List (NodePos α)) (c : Cluster α)
    (acc : List (String × List String)) : List String :=
  (ns.filter fun n =>
    !((directChildren cs c).any fun chId =>
        ((alookup chId acc).getD []).contains n.id) &&
      inRect c.rect n.x n.y).map (·.id)

/-- The node-assignment loop over the area-sorted cluster list
(deepwiki2markdown.py lines 122-153), threading the dict of member
lists built so far. -/
def assignGo (cs : List (Cluster α)) (ns : List (NodePos α)) :
    List (Cluster α) → List (String × List String) → List (String × List String)
  | [], acc => acc
  | c :: rest, acc => assignGo cs ns rest (acc ++ [(c.id, membersFor cs ns c acc)])

/-- Node-to-cluster assignment (deepwiki2markdown.py lines 115-153):
clusters are processed in ascending area order and each collects its
members. -/
def assignNodes (cs : List (Cluster α)) (ns : List (NodePos α)) :
    List (String × List String) :=
  assignGo cs ns (sortByKey (fun c => areaR c.rect) cs) []

/-- The final member list recorded for cluster id `i`. -/
def clusterMembers (cs : List (Cluster α)) (ns : List (NodePos α))
    (i : String) : List String :=
  (alookup i (assignNodes cs ns)).getD []

/-! ### Top-level cluster emission order (deepwiki2markdown.py
lines 202-223) -/

/-- `"MSR Configuration" in clusters[cid]['title']`
(deepwiki2markdown.py line 211). -/
def hasMSRTitle (c : Cluster α) : Bool :=
  isInfixL "MSR Configuration".data c.title.data

/-- The order in which top-level clusters are emitted
(deepwiki2markdown.py lines 208-223): the first cluster whose title
contains `"MSR Configuration"` is moved to the front; without such a
cluster, discovery order is kept. -/
def orderTopLevel (tops : List (Cluster α)) : List (Cluster α) :=
  match tops.find? hasMSRTitle with
  | some m => m :: tops.filter (fun c => c.id ≠ m.id)
  | none => tops

/-! ### Sequence diagrams (deepwiki2markdown.py lines 245-356)

The participant positions involve `float(...)/2`, so the coordinate type
is a linear ordered field here. The message/label nearest-neighbour
matching (lines 280-341) only *builds* the discovery-ordered `elements`
list; the claims under scrutiny concern what happens to `participants`
and `elements` afterwards, so the models below take those lists as
input. -/

/-- One `rect.actor` / label pair found by the participant scan
(deepwiki2markdown.py lines 264-275): display name and the `x` and
`width` attributes of the rect. -/
structure Actor (α : Type) where
  name : String
  x : α
  w : α

variable {F : Type} [LinearOrderedField F]

/-- `float(rect.get('x', 0)) + float(rect.get('width', 0)) / 2`
(deepwiki2markdown.py line 268). -/
def actorCenter (a : Actor F) : F :=
  a.x + a.w / 2

/-- A Python dict assignment `d[k] = v` on an insertion-ordered
association list: an existing key keeps its position and gets the new
value, a new key is appended. -/
def upsert {β : Type} (k : String) (v : β) :
    List (String × β) → List (String × β)
  | [] => [(k, v)]
  | (k', v') :: rest =>
    if k' = k then (k', v) :: rest else (k', v') :: upsert k v rest

/-- The participant dict after the scan loop (deepwiki2markdown.py
lines 264-275): `participants[actor_name] = x` executed once per actor
occurrence, in document order. -/
def extractParticipants (actors : List (Actor F)) : List (String × F) :=
  actors.foldl (fun acc a => upsert a.name (actorCenter a) acc) []

/-- `sorted(elements, key=lambda x: x[0])` (deepwiki2markdown.py
line 350): the discovery-ordered `(y, line)` pairs sorted stably by
vertical position. -/
def orderedElements {γ : Type} [LinearOrder γ] (elements : List (γ × String)) :
    List (γ × String) :=
  sortByKey Prod.fst elements

/-- `'\n'.join(...)`. -/
def joinLines (ls : List String) : String :=
  String.mk (joinSepChar '\n' (ls.map String.data))

/-- The sequence reconstructor's result (deepwiki2markdown.py lines
277-278 and 343-353): the error text when no participant was recognised,
otherwise the fenced block with participants ordered by horizontal
position and elements ordered by vertical position. -/
def convert_sequence (actors : List (Actor F)) (elements : List (F × String)) :
    String :=
  let parts := extractParticipants actors
  if parts = [] then "错误：未识别到参与者"
  else
    "```mermaid\n" ++
      joinLines (["sequenceDiagram"] ++
        (sortByKey Prod.snd parts).map (fun p => "    participant " ++ p.1) ++
        (orderedElements elements).map (fun e => "    " ++ e.2)) ++
      "\n```"

/-! ### State diagrams (deepwiki2markdown.py lines 361-473)

`convert_statediagram_svg_to_mermaid_text` has no `try`
around its node loop; the transform of every node is read with
`re.findall(...)[0]` and `map(float, ...)` (lines 381-382). -/

/-- The `transform` attribute of a state node as the code reads it:
`ok` parses, `missing` makes `findall` return `[]` (so `[0]` raises
`IndexError`), `malformed` makes `float` raise `ValueError`. -/
inductive TransformAttr (α : Type) where
  | ok : α → α → TransformAttr α
  | missing : TransformAttr α
  | malformed : TransformAttr α
deriving DecidableEq

/-- A `g.node` element of a state diagram: id, the `<p>` label text, and
its `transform` attribute. -/
structure StateNodeIn (α : Type) where
  id : String
  label : String
  transform : TransformAttr α
deriving DecidableEq

/-- State-name extraction (deepwiki2markdown.py lines 372-378):
`start`/`end` are detected as substrings of the id, otherwise the
`<p>` text is used. -/
def stateName {α : Type} (n : StateNodeIn α) : String :=
  if isInfixL "start".data n.id.data then "start"
  else if isInfixL "end".data n.id.data then "end"
  else n.label

/-- `map(float, re.findall(r'translate\(([^,]+),\s*([^)]+)', transform)[0])`
(deepwiki2markdown.py line 382): an uncaught exception for a missing or
malformed attribute. -/
def parseTransform {α : Type} : TransformAttr α → Except Unit (α × α)
  | .ok x y => .ok (x, y)
  | .missing => .error ()
  | .malformed => .error ()

/-- An entry of `node_data` (deepwiki2markdown.py lines 384-389). -/
structure StateNode (α : Type) where
  id : String
  state : String
  x : α
  y : α
deriving DecidableEq

/-- The state-node collection loop (deepwiki2markdown.py lines 368-389):
there is no exception handling, so one bad `transform` aborts the whole
traversal. -/
def collectStateNodes {α : Type} :
    List (StateNodeIn α) → Except Unit (List (StateNode α))
  | [] => .ok []
  | n :: rest =>
    match parseTransform n.transform with
    | .error e => .error e
    | .ok (x, y) =>
      match collectStateNodes rest with
      | .error e => .error e
      | .ok others => .ok (⟨n.id, stateName n, x, y⟩ :: others)

/-- `convert_statediagram_svg_to_mermaid_text` (deepwiki2markdown.py
lines 361-473): node collection followed by the edge/label matching and
emission of lines 391-473, abstracted here as `rest` since it runs only
when every node's transform parsed. An exception from the node loop
escapes the (non-existent) local handling. -/
def convert_statediagram {α : Type} (nodes : List (StateNodeIn α))
    (rest : List (StateNode α) → String) : Except Unit String :=
  (collectStateNodes nodes).map rest

/-! ### `process_node` (deepwiki2markdown.py lines 554-721)

The DOM node is modelled as a text node or an element with a tag name,
the result of the line-574 hidden-style test, a flag recording whether
an exception is raised inside the node's own `try` block (lines
583-719), and its children. The emission rules modelled are the ones the
claims exercise; every rule sits inside the same per-node `try`. -/

/-- A rendered DOM node. `hidden` is the line-574 style test; `faulty`
records that processing this element's dispatch raises an exception. -/
inductive RNode where
  | text : String → RNode
  | elem : String → Bool → Bool → List RNode → RNode

/-- The inline error marker `f"[ERROR_PROCESSING:{node.name}]"`
(deepwiki2markdown.py line 719). -/
def errorMarker (name : String) : String :=
  "[ERROR_PROCESSING:" ++ name ++ "]"

/-- The element denylist of deepwiki2markdown.py line 578. -/
def skipNames : List String :=
  ["button", "script", "style", "noscript", "iframe", "header", "footer"]

/-- `''.join(...)`. -/
def joinS : List String → String
  | [] => ""
  | s :: rest => s ++ joinS rest

/-- The per-tag emission rules (deepwiki2markdown.py lines 584-715)
applied to the already-converted child outputs. In the `p` branch both
the mermaid case and the plain case append `content + "\n\n"` (lines
587-590), so they collapse to a single non-empty test. Unmodelled tags
take the generic child-concatenation rule of lines 712-715, which is
also the code's own fallback. -/
def emitElem (name : String) (outs : List String) : String :=
  if name = "p" then
    let content := pyStrip (joinS outs)
    if content = "" then "" else content ++ "\n\n"
  else if name = "br" then "  \n"
  else if name = "hr" then "\n---\n\n"
  else
    let content := joinS outs
    if pyStrip content = "" then "" else content ++ "\n\n"

/-- `process_node` (deepwiki2markdown.py lines 554-721): text nodes
return their text; hidden and denylisted elements return nothing (both
checks precede the `try`); a dispatch that raises is caught at this node
and replaced by the error marker; otherwise the tag's emission rule runs
on the recursively converted children. -/
def process_node : RNode → String
  | .text s => s
  | .elem name hidden faulty children =>
    if hidden then ""
    else if skipNames.contains name then ""
    else if faulty then errorMarker name
    else emitElem name (children.attach.map fun c => process_node c.1)
  termination_by t => sizeOf t
  decreasing_by
    have := List.sizeOf_lt_of_mem c.2
    simp only [RNode.elem.sizeOf_spec]
    omega

/-- The `pre` branch of `process_node` (deepwiki2markdown.py lines
616-645) together with the surrounding `try` of lines 583-719, given the
diagram kind attribute and the reconstructors' results:
`convert_flowchart_svg_to_mermaid_text` returns `None` on failure
(line 243), the class stub and `convert_sequence_svg_to_mermaid_text`
always return a string, and `convert_statediagram_svg_to_mermaid_text`
can raise (modelled by `Except`). `mermaid_output` truthiness is the
line-632 `if mermaid_output:`. -/
def classPlaceholder : String := "```mermaid\n暂不支持类图\n```"

/-- `Option String` truthiness: Python's `if mermaid_output:` is false
for `None` and for the empty string. -/
def isTruthyStr : Option String → Bool
  | none => false
  | some s => s ≠ ""

/-- The `mermaid_output` value after the dispatch chain of
deepwiki2markdown.py lines 621-630; `.error` means the reconstructor
raised. -/
def dispatchDiagram (dt : String) (flowRes : Option String) (seqRes : String)
    (stateRes : Except Unit String) : Except Unit (Option String) :=
  if isInfixL "flowchart".data dt.data then .ok flowRes
  else if isInfixL "class".data dt.data then .ok (some classPlaceholder)
  else if isInfixL "sequence".data dt.data then .ok (some seqRes)
  else if isInfixL "stateDiagram".data dt.data then stateRes.map some
  else .ok none

/-- The code-block fallback of deepwiki2markdown.py line 645:
`f"```{lang}\n{code_text.strip()}\n```\n\n"`. -/
def codeFence (lang codeText : String) : String :=
  "```" ++ lang ++ "\n" ++ pyStrip codeText ++ "\n```\n\n"

/-- The value `process_node` produces for a `pre` element
(deepwiki2markdown.py lines 616-645 plus the catch of lines 716-719):
a truthy `mermaid_output` is emitted as `f"\n{mermaid_output}\n\n"`, a
falsy one falls back to the fenced code block, and an exception raised
by a reconstructor becomes the node's error marker. -/
def processPreNode (diagramType : Option String) (flowRes : Option String)
    (seqRes : String) (stateRes : Except Unit String)
    (lang codeText : String) : String :=
  let disp : Except Unit (Option String) :=
    match diagramType with
    | none => .ok none
    | some dt => dispatchDiagram dt flowRes seqRes stateRes
  match disp with
  | .error _ => errorMarker "pre"
  | .ok mo =>
    if isTruthyStr mo then "\n" ++ mo.getD "" ++ "\n\n"
    else codeFence lang codeText

/-! ### Concrete diagram data used by the counterexamples and
witnesses: three strictly nested cluster boxes `A ⊂ B ⊂ C` and one
top-level cluster whose title mentions "MSR Configuration". -/

/-- Innermost cluster box `(0,0)-(10,10)`. -/
def exA : Cluster Int := ⟨"A", "a", ⟨0, 0, 10, 10⟩⟩

/-- Middle cluster box `(-1,-1)-(11,11)`, directly containing `exA`. -/
def exB : Cluster Int := ⟨"B", "b", ⟨-1, -1, 11, 11⟩⟩

/-- Outermost cluster box `(-2,-2)-(12,12)`, directly containing `exB`
and containing `exA` only through `exB`. -/
def exC : Cluster Int := ⟨"C", "c", ⟨-2, -2, 12, 12⟩⟩

/-- A top-level cluster whose title contains `"MSR Configuration"`. -/
def exM : Cluster Int := ⟨"M", "the MSR Configuration box", ⟨0, 0, 1, 1⟩⟩

end WpMdWd

namespace WpMdWd

/-! ## Helper lemmas -/

theorem natRange_findSome?_eq_some {β : Type} {f : Nat → Option β} :
    ∀ {s n : Nat} {b : β}, ((natRange s n).findSome? f) = some b →
      ∃ i, s ≤ i ∧ i < s + n ∧ f i = some b ∧
        ∀ j, s ≤ j → j < i → f j = none := by
  intro s n
  induction n generalizing s with
  | zero => intro b h; simp [natRange, List.findSome?] at h
  | succ n ih =>
    intro b h
    rw [natRange, List.findSome?_cons] at h
    cases hf : f s with
    | some v =>
      simp only [hf] at h
      exact ⟨s, Nat.le_refl s, by omega, by rw [hf, h], fun j hj1 hj2 => by omega⟩
    | none =>
      simp only [hf] at h
      obtain ⟨i, hi1, hi2, hi3, hi4⟩ := ih h
      refine ⟨i, by omega, by omega, hi3, fun j hj1 hj2 => ?_⟩
      rcases Nat.eq_or_lt_of_le hj1 with heq | hlt
      · rw [← heq]; exact hf
      · exact hi4 j hlt hj2

theorem natRange_findSome?_eq_none {β : Type} {f : Nat → Option β} :
    ∀ {s n : Nat}, ((natRange s n).findSome? f) = none →
      ∀ i, s ≤ i → i < s + n → f i = none := by
  intro s n
  induction n generalizing s with
  | zero => intro _ i h1 h2; omega
  | succ n ih =>
    intro h i h1 h2
    rw [natRange, List.findSome?_cons] at h
    cases hf : f s with
    | some v => simp only [hf] at h; cases h
    | none =>
      simp only [hf] at h
      rcases Nat.eq_or_lt_of_le h1 with heq | hlt
      · rw [← heq]; exact hf
      · exact ih h i hlt (by omega)

theorem trySplit_eq_some_iff {nodeIds parts : List String} {i : Nat}
    {s t : String} :
    trySplit nodeIds parts i = some (s, t) ↔
      s = edgeSource parts i ∧ t = edgeTarget parts i ∧
        nodeIds.contains (edgeSource parts i) = true ∧
        nodeIds.contains (edgeTarget parts i) = true := by
  unfold trySplit
  split
  · next h =>
    rw [Bool.and_eq_true] at h
    constructor
    · intro he
      injection he with he
      injection he with h1 h2
      exact ⟨h1.symm, h2.symm, h.1, h.2⟩
    · rintro ⟨h1, h2, _, _⟩
      rw [h1, h2]
  · next h =>
    constructor
    · intro he; cases he
    · rintro ⟨_, _, h3, h4⟩
      exact absurd (by rw [Bool.and_eq_true]; exact ⟨h3, h4⟩) h

theorem trySplit_eq_none_iff {nodeIds parts : List String} {i : Nat} :
    trySplit nodeIds parts i = none ↔
      ¬(nodeIds.contains (edgeSource parts i) = true ∧
        nodeIds.contains (edgeTarget parts i) = true) := by
  unfold trySplit
  split
  · next h =>
    rw [Bool.and_eq_true] at h
    constructor
    · intro he; cases he
    · intro hn; exact absurd h hn
  · next h =>
    constructor
    · intro _ hab
      exact h (by rw [Bool.and_eq_true]; exact hab)
    · intro _; rfl

/-! ## C1: first-working-split edge resolution -/

/-- C1: for an edge id starting with `L_`, the reconstructor splits the
rest on `_`, and for each split point `i` from 1 to `len-1` compares the
suffix-stripped halves against the known node-id set; the first split
point (left to right) at which both halves are known yields the single
emitted edge, and when no split point works the edge is dropped. -/
theorem c1_first_working_split (nodeIds : List String) (pid : String)
    (hL : startsWithL pid = true) :
    (∀ s t, resolveEdgeId nodeIds pid = some (s, t) →
      ∃ i, 1 ≤ i ∧ i < (splitUnderscore pid).length ∧
        s = edgeSource (splitUnderscore pid) i ∧
        t = edgeTarget (splitUnderscore pid) i ∧
        nodeIds.contains s = true ∧ nodeIds.contains t = true ∧
        ∀ j, 1 ≤ j → j < i →
          ¬(nodeIds.contains (edgeSource (splitUnderscore pid) j) = true ∧
            nodeIds.contains (edgeTarget (splitUnderscore pid) j) = true)) ∧
    (resolveEdgeId nodeIds pid = none →
      ∀ i, 1 ≤ i → i < (splitUnderscore pid).length →
        ¬(nodeIds.contains (edgeSource (splitUnderscore pid) i) = true ∧
          nodeIds.contains (edgeTarget (splitUnderscore pid) i) = true)) := by
  constructor
  · intro s t h
    rw [resolveEdgeId, if_pos hL] at h
    obtain ⟨i, hi1, hi2, hi3, hi4⟩ := natRange_findSome?_eq_some h
    obtain ⟨hs, ht, hcs, hct⟩ := trySplit_eq_some_iff.mp hi3
    refine ⟨i, hi1, by omega, hs, ht, hs ▸ hcs, ht ▸ hct, fun j hj1 hj2 => ?_⟩
    exact trySplit_eq_none_iff.mp (hi4 j hj1 hj2)
  · intro h i hi1 hi2
    rw [resolveEdgeId, if_pos hL] at h
    exact trySplit_eq_none_iff.mp
      (natRange_findSome?_eq_none h i hi1 (by omega))

/-- Witness for C1 at Scenario 3 of the spec: in `L_Foo_Bar_Baz_0` with
known ids `Foo_Bar` and `Baz`, the selected split is
`source = Foo_Bar, target = Baz`. -/
theorem c1_first_working_split_witness :
    resolveEdgeId ["Foo_Bar", "Baz"] "L_Foo_Bar_Baz_0" =
      some ("Foo_Bar", "Baz") ∧
    ∃ i, 1 ≤ i ∧ i < (splitUnderscore "L_Foo_Bar_Baz_0").length ∧
      "Foo_Bar" = edgeSource (splitUnderscore "L_Foo_Bar_Baz_0") i ∧
      "Baz" = edgeTarget (splitUnderscore "L_Foo_Bar_Baz_0") i ∧
      ["Foo_Bar", "Baz"].contains "Foo_Bar" = true ∧
      ["Foo_Bar", "Baz"].contains "Baz" = true ∧
      ∀ j, 1 ≤ j → j < i →
        ¬(["Foo_Bar", "Baz"].contains
            (edgeSource (splitUnderscore "L_Foo_Bar_Baz_0") j) = true ∧
          ["Foo_Bar", "Baz"].contains
            (edgeTarget (splitUnderscore "L_Foo_Bar_Baz_0") j) = true) :=
  ⟨by decide,
    (c1_first_working_split ["Foo_Bar", "Baz"] "L_Foo_Bar_Baz_0"
      (by decide)).1 "Foo_Bar" "Baz" (by decide)⟩

/-! ## C3: edge soundness -/

/-- C3: every edge line the flowchart reconstructor emits is
`s --> t` with both `s` and `t` in the extracted node-id set; an
unresolvable path id contributes nothing. -/
theorem c3_edge_soundness (nodeIds pathIds : List String) :
    ∀ e ∈ collectEdges nodeIds pathIds, ∃ s t,
      e = s ++ " --> " ++ t ∧ s ∈ nodeIds ∧ t ∈ nodeIds := by
  intro e he
  rw [collectEdges, List.mem_filterMap] at he
  obtain ⟨pid, _, hres⟩ := he
  cases hr : resolveEdgeId nodeIds pid with
  | none => rw [hr] at hres; cases hres
  | some st =>
    rw [hr] at hres
    obtain ⟨s, t⟩ := st
    injection hres with hres
    rw [resolveEdgeId] at hr
    split at hr
    · obtain ⟨i, _, _, hi3, _⟩ := natRange_findSome?_eq_some hr
      obtain ⟨hs, ht, hcs, hct⟩ := trySplit_eq_some_iff.mp hi3
      refine ⟨s, t, hres.symm, ?_, ?_⟩
      · rw [hs]; simpa using hcs
      · rw [ht]; simpa using hct
    · cases hr

/-- Witness for C3 at Scenario 1 of the spec: the edge resolved from
`L_A_B_0` has both endpoints among the known ids. -/
theorem c3_edge_soundness_witness :
    ∃ s t, "A --> B" = s ++ " --> " ++ t ∧ s ∈ ["A", "B"] ∧ t ∈ ["A", "B"] :=
  c3_edge_soundness ["A", "B"] ["L_A_B_0"] "A --> B" (by decide)

/-! ## C10: the hard-coded "MSR Configuration" special case -/

theorem find?_first_split {β : Type} {p : β → Bool} :
    ∀ {l : List β} {m : β}, l.find? p = some m →
      p m = true ∧ ∃ pre post, l = pre ++ m :: post ∧
        ∀ c ∈ pre, p c = false := by
  intro l
  induction l with
  | nil => intro m h; cases h
  | cons a l ih =>
    intro m h
    by_cases hpa : p a = true
    · rw [List.find?_cons_of_pos _ hpa] at h
      injection h with h
      subst h
      exact ⟨hpa, [], l, rfl, by intro c hc; cases hc⟩
    · rw [List.find?_cons_of_neg _ hpa] at h
      obtain ⟨hm, pre, post, heq, hpre⟩ := ih h
      refine ⟨hm, a :: pre, post, by rw [heq]; rfl, ?_⟩
      intro c hc
      rcases List.mem_cons.mp hc with rfl | hc
      · exact Bool.not_eq_true _ ▸ hpa
      · exact hpre c hc

/-- C10: if some top-level cluster's title contains
`"MSR Configuration"`, the first such cluster (in discovery order) is
emitted before every other top-level cluster; otherwise top-level
clusters are emitted in discovery order. -/
theorem c10_msr_cluster_first {α : Type} [LinearOrderedCommRing α]
    (tops : List (Cluster α)) :
    ((∃ c ∈ tops, hasMSRTitle c = true) →
      ∃ m pre post, hasMSRTitle m = true ∧
        tops = pre ++ m :: post ∧ (∀ c ∈ pre, hasMSRTitle c = false) ∧
        orderTopLevel tops = m :: tops.filter (fun c => c.id ≠ m.id)) ∧
    ((∀ c ∈ tops, hasMSRTitle c = false) → orderTopLevel tops = tops) := by
  constructor
  · rintro ⟨c, hc, hpc⟩
    cases hf : tops.find? hasMSRTitle with
    | none =>
      have := List.find?_eq_none.mp hf c hc
      exact absurd hpc this
    | some m =>
      obtain ⟨hm, pre, post, heq, hpre⟩ := find?_first_split hf
      exact ⟨m, pre, post, hm, heq, hpre, by simp only [orderTopLevel, hf]⟩
  · intro h
    cases hf : tops.find? hasMSRTitle with
    | none => simp only [orderTopLevel, hf]
    | some m =>
      have hm := List.find?_some hf
      have hmem := List.mem_of_find?_eq_some hf
      rw [h m hmem] at hm
      cases hm

/-- Witness for C10: with discovery order `[exA, exM, exB]` the
MSR-titled cluster `exM` is emitted first; without any MSR-titled
cluster, `[exA, exB]` keeps discovery order. -/
theorem c10_msr_cluster_first_witness :
    (∃ m pre post, hasMSRTitle m = true ∧
      ([exA, exM, exB] : List (Cluster Int)) = pre ++ m :: post ∧
      (∀ c ∈ pre, hasMSRTitle c = false) ∧
      orderTopLevel [exA, exM, exB] =
        m :: [exA, exM, exB].filter (fun c => c.id ≠ m.id)) ∧
    orderTopLevel ([exA, exB] : List (Cluster Int)) = [exA, exB] :=
  ⟨(c10_msr_cluster_first [exA, exM, exB]).1 ⟨exM, by decide, by decide⟩,
    (c10_msr_cluster_first [exA, exB]).2 (by decide)⟩

/-! ## C4: sequence participant recording -/

/-- C4 fails on the code: with the same display name `"A"` occurring
first at `x = 10` and then at `x = 50`, the dict assignment
`participants[actor_name] = x` (deepwiki2markdown.py line 271) keeps the
**last** occurrence's position `50`, not the first occurrence's `10`
promised by the claim and by the code's own comment on line 270. -/
theorem c4_last_occurrence_recorded :
    extractParticipants (F := ℚ) [⟨"A", 10, 0⟩, ⟨"A", 50, 0⟩] = [("A", 50)] := by
  norm_num [extractParticipants, upsert, actorCenter]

/-! ## C5: unsupported diagram kinds -/

/-- C5 counterexample: for a `classDiagram` block the class stub returns
the non-empty placeholder mermaid block (deepwiki2markdown.py line 359),
which is truthy, so `process_node` emits it as a diagram block instead
of falling back to the plain fenced code block. -/
theorem c5_counterexample :
    processPreNode (some "classDiagram") none "" (.ok "") "python" "x = 1" =
      "\n```mermaid\n暂不支持类图\n```\n\n" ∧
    processPreNode (some "classDiagram") none "" (.ok "") "python" "x = 1" ≠
      codeFence "python" "x = 1" := by
  constructor
  · decide
  · decide

/-- C5 as amended: the class stub yields a placeholder mermaid block
(emitted as a diagram block, not a fallback); a sequence pass with zero
recognised participants yields the truthy error text, also emitted
directly; the plain-code fallback happens only when the reconstructor
result is falsy, e.g. the flowchart reconstructor's `None`. -/
theorem c5_unsupported_diagram_amended
    (flowRes : Option String) (seqRes : String)
    (stateRes : Except Unit String) (lang codeText : String)
    (actors : List (Actor ℚ)) (elements : List (ℚ × String)) :
    (processPreNode (some "classDiagram") flowRes seqRes stateRes lang codeText =
      "\n" ++ classPlaceholder ++ "\n\n") ∧
    (processPreNode (some "flowchart") none seqRes stateRes lang codeText =
      codeFence lang codeText) ∧
    (extractParticipants actors = [] →
      processPreNode (some "sequence") flowRes
          (convert_sequence actors elements) stateRes lang codeText =
        "\n错误：未识别到参与者\n\n") := by
  refine ⟨?_, ?_, ?_⟩
  · rw [processPreNode, dispatchDiagram,
      if_neg (by decide), if_pos (by decide)]
    dsimp only
    rw [if_pos (by decide)]
    rfl
  · rw [processPreNode, dispatchDiagram, if_pos (by decide)]
    dsimp only
    rw [if_neg (by decide)]
  · intro h
    have hseq : convert_sequence actors elements = "错误：未识别到参与者" := by
      rw [convert_sequence]
      simp only [h, if_pos]
    rw [processPreNode, dispatchDiagram,
      if_neg (by decide), if_neg (by decide), if_pos (by decide), hseq]
    dsimp only
    rw [if_pos (by decide)]
    decide

/-- Witness for C5 (amended): concrete instances of all three branches,
with an empty actor list for the sequence case. -/
theorem c5_unsupported_diagram_amended_witness :
    (processPreNode (some "classDiagram") none "" (.ok "") "py" "c" =
      "\n" ++ classPlaceholder ++ "\n\n") ∧
    (processPreNode (some "flowchart") none "" (.ok "") "py" "c" =
      codeFence "py" "c") ∧
    (processPreNode (some "sequence") none
        (convert_sequence (F := ℚ) [] []) (.ok "") "py" "c" =
      "\n错误：未识别到参与者\n\n") :=
  ⟨(c5_unsupported_diagram_amended none "" (.ok "") "py" "c" [] []).1,
    (c5_unsupported_diagram_amended none "" (.ok "") "py" "c" [] []).2.1,
    (c5_unsupported_diagram_amended none "" (.ok "") "py" "c" [] []).2.2 rfl⟩

/-! ## C6: unparsable geometry -/

/-- C6 counterexample: in a state diagram, one node with a missing
`transform` makes `re.findall(...)[0]` raise; the whole reconstruction
pass aborts (the good node `s1` is lost too) and `process_node` turns
the entire block into an error marker rather than excluding just the bad
node. -/
theorem c6_counterexample :
    collectStateNodes (α := Int)
        [⟨"s1", "A", .ok 1 2⟩, ⟨"s2", "B", .missing⟩] = .error () ∧
    processPreNode (some "stateDiagram") none ""
        (convert_statediagram (α := Int)
          [⟨"s1", "A", .ok 1 2⟩, ⟨"s2", "B", .missing⟩] (fun _ => ""))
        "py" "c" =
      "[ERROR_PROCESSING:pre]" := by
  constructor
  · rfl
  · decide

/-- C6 as amended: in the flowchart reconstructor a cluster with
unparsable geometry is excluded and every other cluster is still
processed; but in the state-diagram reconstructor a single node with a
missing or malformed `transform` raises an uncaught exception, so the
whole pass fails, and `process_node` replaces the entire block with its
error marker. -/
theorem c6_unparsable_geometry_amended {α : Type} [LinearOrderedCommRing α] :
    (∀ (pre post : List (ClusterIn α)) (badc : ClusterIn α),
      parseCluster badc = none →
      collectClusters (pre ++ badc :: post) =
        collectClusters pre ++ collectClusters post) ∧
    (∀ (ns : List (StateNodeIn α)) (n : StateNodeIn α), n ∈ ns →
      parseTransform n.transform = .error () →
      collectStateNodes ns = .error ()) ∧
    (∀ (ns : List (StateNodeIn α)) (rst : List (StateNode α) → String)
      (flowRes : Option String) (seqRes lang codeText : String),
      collectStateNodes ns = .error () →
      processPreNode (some "stateDiagram") flowRes seqRes
          (convert_statediagram ns rst) lang codeText =
        errorMarker "pre") := by
  refine ⟨?_, ?_, ?_⟩
  · intro pre post badc hbad
    rw [collectClusters, collectClusters, collectClusters,
      List.filterMap_append, List.filterMap_cons, hbad]
  · intro ns n hmem hbad
    induction ns with
    | nil => cases hmem
    | cons a rest ih =>
      rcases List.mem_cons.mp hmem with rfl | hmem'
      · rw [collectStateNodes, hbad]
      · rw [collectStateNodes]
        cases hp : parseTransform a.transform with
        | error e => rfl
        | ok xy =>
          obtain ⟨x, y⟩ := xy
          rw [ih hmem']
  · intro ns rst flowRes seqRes lang codeText herr
    have hstate : convert_statediagram ns rst = .error () := by
      rw [convert_statediagram, herr]; rfl
    rw [processPreNode, dispatchDiagram,
      if_neg (by decide), if_neg (by decide), if_neg (by decide),
      if_pos (by decide), hstate]
    rfl

/-- Witness for C6 (amended): a flowchart pass with one bad cluster
keeps the good ones; a state pass with one bad transform aborts and the
block becomes an error marker. -/
theorem c6_unparsable_geometry_amended_witness :
    (collectClusters (α := Int)
        [⟨"g", "G", some (.val 0, .val 0, .val 4, .val 4)⟩,
         ⟨"bad", "B", some (.bad, .val 0, .val 1, .val 1)⟩,
         ⟨"h", "H", some (.val 1, .val 1, .val 2, .val 2)⟩] =
      collectClusters (α := Int)
          [⟨"g", "G", some (.val 0, .val 0, .val 4, .val 4)⟩] ++
        collectClusters (α := Int)
          [⟨"h", "H", some (.val 1, .val 1, .val 2, .val 2)⟩]) ∧
    (collectStateNodes (α := Int)
        [⟨"s1", "A", .ok 1 2⟩, ⟨"s2", "B", .malformed⟩] = .error ()) ∧
    (processPreNode (some "stateDiagram") none "hello"
        (convert_statediagram (α := Int)
          [⟨"s1", "A", .ok 1 2⟩, ⟨"s2", "B", .malformed⟩] (fun _ => "out"))
        "py" "c" =
      errorMarker "pre") :=
  ⟨(c6_unparsable_geometry_amended (α := Int)).1
      [⟨"g", "G", some (.val 0, .val 0, .val 4, .val 4)⟩]
      [⟨"h", "H", some (.val 1, .val 1, .val 2, .val 2)⟩]
      ⟨"bad", "B", some (.bad, .val 0, .val 1, .val 1)⟩ rfl,
    (c6_unparsable_geometry_amended (α := Int)).2.1
      [⟨"s1", "A", .ok 1 2⟩, ⟨"s2", "B", .malformed⟩]
      ⟨"s2", "B", .malformed⟩ (by decide) rfl,
    (c6_unparsable_geometry_amended (α := Int)).2.2
      [⟨"s1", "A", .ok 1 2⟩, ⟨"s2", "B", .malformed⟩]
      (fun _ => "out") none "hello" "py" "c" rfl⟩

/-! ## C2: node-to-cluster uniqueness (counterexample) -/

/-- C2 counterexample: with the strictly nested boxes `A ⊂ B ⊂ C` and a
node at `(5,5)`, the assignment puts the node into `A` (innermost) *and*
into `C`: `B` skips it because its direct child `A` already holds it,
but `C`'s only direct child is `B`, whose member list does not contain
the node — so `C`, a non-direct ancestor of `A`, claims it again. -/
theorem c2_counterexample :
    "n" ∈ clusterMembers [exA, exB, exC] [⟨"n", 5, 5⟩] "A" ∧
    "n" ∈ clusterMembers [exA, exB, exC] [⟨"n", 5, 5⟩] "C" ∧
    "A" ≠ "C" ∧
    directChildren [exA, exB, exC] exC = ["B"] ∧
    directChildren [exA, exB, exC] exB = ["A"] := by
  refine ⟨?_, ?_, ?_, ?_, ?_⟩ <;> decide

/-! ## Stable-sort lemmas -/

theorem mem_insLe {β γ : Type} [LinearOrder γ] {key : β → γ} {x a : β} :
    ∀ {l : List β}, a ∈ insLe key x l ↔ a = x ∨ a ∈ l := by
  intro l
  induction l with
  | nil => simp [insLe]
  | cons y ys ih =>
    simp only [insLe]
    split
    · simp only [List.mem_cons]
    · simp only [List.mem_cons, ih]
      tauto

theorem perm_insLe {β γ : Type} [LinearOrder γ] (key : β → γ) (x : β) :
    ∀ l : List β, List.Perm (insLe key x l) (x :: l) := by
  intro l
  induction l with
  | nil => exact List.Perm.refl _
  | cons y ys ih =>
    simp only [insLe]
    split
    · exact List.Perm.refl _
    · exact List.Perm.trans (List.Perm.cons y ih) (List.Perm.swap x y ys)

theorem sortByKey_perm {β γ : Type} [LinearOrder γ] (key : β → γ) :
    ∀ l : List β, List.Perm (sortByKey key l) l := by
  intro l
  induction l with
  | nil => exact List.Perm.refl _
  | cons a l ih =>
    exact List.Perm.trans (perm_insLe key a (sortByKey key l))
      (List.Perm.cons a ih)

theorem pairwise_insLe {β γ : Type} [LinearOrder γ] {key : β → γ} {x : β} :
    ∀ {l : List β}, l.Pairwise (fun a b => key a ≤ key b) →
      (insLe key x l).Pairwise (fun a b => key a ≤ key b) := by
  intro l
  induction l with
  | nil => intro _; exact List.pairwise_singleton _ _
  | cons y ys ih =>
    intro h
    rw [List.pairwise_cons] at h
    obtain ⟨hy, hys⟩ := h
    simp only [insLe]
    split
    · next hxy =>
      refine List.Pairwise.cons ?_ (List.Pairwise.cons hy hys)
      intro b hb
      rcases List.mem_cons.mp hb with rfl | hb
      · exact hxy
      · exact le_trans hxy (hy b hb)
    · next hxy =>
      refine List.Pairwise.cons ?_ (ih hys)
      intro b hb
      rcases mem_insLe.mp hb with rfl | hb
      · exact le_of_not_le hxy
      · exact hy b hb

theorem pairwise_sortByKey {β γ : Type} [LinearOrder γ] (key : β → γ) :
    ∀ l : List β, (sortByKey key l).Pairwise (fun a b => key a ≤ key b) := by
  intro l
  induction l with
  | nil => exact List.Pairwise.nil
  | cons a l ih => exact pairwise_insLe ih

theorem filter_keyEq_insLe {β γ : Type} [LinearOrder γ] (key : β → γ) (q : γ)
    (x : β) : ∀ l : List β,
    (insLe key x l).filter (fun a => decide (key a = q)) =
      if key x = q then x :: l.filter (fun a => decide (key a = q))
      else l.filter (fun a => decide (key a = q)) := by
  intro l
  induction l with
  | nil => by_cases hq : key x = q <;> simp [insLe, List.filter_cons, hq]
  | cons y ys ih =>
    simp only [insLe]
    split
    · next hxy =>
      by_cases hq : key x = q <;> simp [List.filter_cons, hq]
    · next hxy =>
      have hyx : key y < key x := lt_of_not_le hxy
      by_cases hq : key x = q
      · have hyq : ¬key y = q := by rw [← hq]; exact ne_of_lt hyx
        simp [List.filter_cons, hq, hyq, ih]
      · by_cases hyq : key y = q <;> simp [List.filter_cons, hq, hyq, ih]

theorem filter_keyEq_sortByKey {β γ : Type} [LinearOrder γ] (key : β → γ)
    (q : γ) : ∀ l : List β,
    (sortByKey key l).filter (fun a => decide (key a = q)) =
      l.filter (fun a => decide (key a = q)) := by
  intro l
  induction l with
  | nil => rfl
  | cons a l ih =>
    have hs : sortByKey key (a :: l) = insLe key a (sortByKey key l) := rfl
    rw [hs, filter_keyEq_insLe, ih]
    by_cases hq : key a = q <;> simp [List.filter_cons, hq]

/-! ## C7: sequence emission order -/

/-- C7: the emitted sequence elements are sorted by non-decreasing
vertical coordinate; elements sharing a vertical coordinate keep their
discovery order (the filtered subsequence at each coordinate is
unchanged); and the sorted list is a permutation of the discovered
list — nothing is lost or duplicated. -/
theorem c7_vertical_emission_order {γ : Type} [LinearOrder γ]
    (elements : List (γ × String)) (q : γ) :
    (orderedElements elements).Pairwise (fun a b => a.1 ≤ b.1) ∧
    (orderedElements elements).filter (fun e => decide (e.1 = q)) =
      elements.filter (fun e => decide (e.1 = q)) ∧
    List.Perm (orderedElements elements) elements :=
  ⟨pairwise_sortByKey Prod.fst elements,
    filter_keyEq_sortByKey Prod.fst q elements,
    sortByKey_perm Prod.fst elements⟩

/-! ## C2: node-to-cluster assignment (amended theorem) -/

theorem alookup_append_left {k : String} :
    ∀ {l1 l2 : List (String × List String)}, (alookup k l1).isSome →
      alookup k (l1 ++ l2) = alookup k l1 := by
  intro l1
  induction l1 with
  | nil => intro l2 h; cases h
  | cons kv rest ih =>
    intro l2 h
    obtain ⟨k', v⟩ := kv
    by_cases hk : k' = k
    · simp [alookup, hk]
    · simp only [alookup, if_neg hk] at h ⊢
      exact ih h

theorem alookup_append_right {k : String} :
    ∀ {l1 l2 : List (String × List String)}, k ∉ l1.map Prod.fst →
      alookup k (l1 ++ l2) = alookup k l2 := by
  intro l1
  induction l1 with
  | nil => intro l2 _; rfl
  | cons kv rest ih =>
    intro l2 h
    obtain ⟨k', v⟩ := kv
    simp only [List.map_cons, List.mem_cons] at h
    push_neg at h
    rw [List.cons_append, alookup, if_neg (Ne.symm h.1)]
    exact ih h.2

theorem assignGo_append {α : Type} [LinearOrderedCommRing α]
    (cs : List (Cluster α)) (ns : List (NodePos α)) :
    ∀ (l1 l2 : List (Cluster α)) (acc : List (String × List String)),
      assignGo cs ns (l1 ++ l2) acc = assignGo cs ns l2 (assignGo cs ns l1 acc) := by
  intro l1
  induction l1 with
  | nil => intro l2 acc; rfl
  | cons c rest ih =>
    intro l2 acc
    rw [List.cons_append]
    rw [show assignGo cs ns (c :: (rest ++ l2)) acc =
        assignGo cs ns (rest ++ l2) (acc ++ [(c.id, membersFor cs ns c acc)]) from rfl]
    rw [show assignGo cs ns (c :: rest) acc =
        assignGo cs ns rest (acc ++ [(c.id, membersFor cs ns c acc)]) from rfl]
    exact ih l2 _

theorem assignGo_keys {α : Type} [LinearOrderedCommRing α]
    (cs : List (Cluster α)) (ns : List (NodePos α)) :
    ∀ (l : List (Cluster α)) (acc : List (String × List String)),
      (assignGo cs ns l acc).map Prod.fst =
        acc.map Prod.fst ++ l.map Cluster.id := by
  intro l
  induction l with
  | nil => intro acc; simp [assignGo]
  | cons c rest ih =>
    intro acc
    rw [assignGo, ih]
    simp

theorem assignGo_lookup_stable {α : Type} [LinearOrderedCommRing α]
    (cs : List (Cluster α)) (ns : List (NodePos α)) :
    ∀ (l : List (Cluster α)) (acc : List (String × List String)) (k : String),
      (alookup k acc).isSome →
        alookup k (assignGo cs ns l acc) = alookup k acc := by
  intro l
  induction l with
  | nil => intro acc k _; rfl
  | cons c rest ih =>
    intro acc k h
    rw [assignGo]
    have hstep : alookup k (acc ++ [(c.id, membersFor cs ns c acc)]) = alookup k acc :=
      alookup_append_left h
    rw [ih _ _ (by rw [hstep]; exact h), hstep]

theorem assignGo_lookup_at {α : Type} [LinearOrderedCommRing α]
    (cs : List (Cluster α)) (ns : List (NodePos α))
    (l1 : List (Cluster α)) (c : Cluster α) (l2 : List (Cluster α))
    (hnod : ((l1 ++ c :: l2).map Cluster.id).Nodup) :
    alookup c.id (assignGo cs ns (l1 ++ c :: l2) []) =
      some (membersFor cs ns c (assignGo cs ns l1 [])) := by
  have hnotin : c.id ∉ l1.map Cluster.id := by
    rw [List.map_append, List.map_cons, List.nodup_append] at hnod
    intro hmem
    exact hnod.2.2 hmem (List.mem_cons_self _ _)
  rw [assignGo_append, assignGo]
  have hkeys : c.id ∉ (assignGo cs ns l1 []).map Prod.fst := by
    rw [assignGo_keys]
    simpa using hnotin
  have hstep : alookup c.id
      ((assignGo cs ns l1 []) ++ [(c.id, membersFor cs ns c (assignGo cs ns l1 []))]) =
      some (membersFor cs ns c (assignGo cs ns l1 [])) := by
    rw [alookup_append_right hkeys, alookup, if_pos rfl]
  rw [assignGo_lookup_stable _ _ _ _ _ (by rw [hstep]; rfl), hstep]

/-- C2 as amended: a node is never recorded in both a cluster `c` and
one of `c`'s **direct** children `ch` (the `already_clustered` test of
deepwiki2markdown.py lines 131-134 checks exactly the direct children,
which are processed before `c` when their area is strictly smaller) —
the counterexample shows the claim's stronger guarantee (no duplication
into non-direct ancestors or overlapping siblings) fails. -/
theorem c2_direct_child_no_duplicate {α : Type} [LinearOrderedCommRing α]
    (cs : List (Cluster α)) (ns : List (NodePos α)) (c ch : Cluster α)
    (nid : String)
    (hnodup : (cs.map Cluster.id).Nodup)
    (hc : c ∈ cs) (hch : ch ∈ cs)
    (hdc : ch.id ∈ directChildren cs c)
    (harea : areaR ch.rect < areaR c.rect) :
    ¬(nid ∈ clusterMembers cs ns c.id ∧ nid ∈ clusterMembers cs ns ch.id) := by
  rintro ⟨hin_c, hin_ch⟩
  have hperm : List.Perm (sortByKey (fun x => areaR x.rect) cs) cs :=
    sortByKey_perm (fun x => areaR x.rect) cs
  have hnodS : ((sortByKey (fun x => areaR x.rect) cs).map Cluster.id).Nodup :=
    ((hperm.map Cluster.id).nodup_iff).mpr hnodup
  have hcS : c ∈ sortByKey (fun x => areaR x.rect) cs := hperm.mem_iff.mpr hc
  obtain ⟨l1, l2, hsplit⟩ := List.append_of_mem hcS
  -- `ch` is processed in the prefix `l1`, strictly before `c`.
  have hchS : ch ∈ sortByKey (fun x => areaR x.rect) cs := hperm.mem_iff.mpr hch
  have hch_l1 : ch ∈ l1 := by
    rw [hsplit] at hchS
    rcases List.mem_append.mp hchS with h1 | h2
    · exact h1
    · rcases List.mem_cons.mp h2 with rfl | h2
      · exact absurd harea (lt_irrefl _)
      · have hsort := pairwise_sortByKey (fun x => areaR x.rect) cs
        rw [hsplit] at hsort
        have hc_le : areaR c.rect ≤ areaR ch.rect :=
          (List.pairwise_cons.mp (List.pairwise_append.mp hsort).2.1).1 ch h2
        exact absurd harea (not_lt_of_le hc_le)
  have hnodS' : ((l1 ++ c :: l2).map Cluster.id).Nodup := by rw [← hsplit]; exact hnodS
  -- the member list `c` records, and where it comes from
  have hcmem : clusterMembers cs ns c.id =
      membersFor cs ns c (assignGo cs ns l1 []) := by
    rw [clusterMembers, assignNodes, hsplit, assignGo_lookup_at cs ns l1 c l2 hnodS']
    rfl
  -- the member list `ch` records is already final in the prefix
  obtain ⟨p1, p2, hsplit1⟩ := List.append_of_mem hch_l1
  have hnodl1 : ((p1 ++ ch :: p2).map Cluster.id).Nodup := by
    rw [← hsplit1]
    rw [List.map_append, List.nodup_append] at hnodS'
    exact hnodS'.1
  have hch_pref : alookup ch.id (assignGo cs ns l1 []) =
      some (membersFor cs ns ch (assignGo cs ns p1 [])) := by
    rw [hsplit1]
    exact assignGo_lookup_at cs ns p1 ch p2 hnodl1
  have hch_final : alookup ch.id (assignNodes cs ns) =
      alookup ch.id (assignGo cs ns l1 []) := by
    rw [assignNodes, hsplit, assignGo_append]
    exact assignGo_lookup_stable cs ns (c :: l2) _ ch.id (by rw [hch_pref]; rfl)
  -- unpack membership of `nid` in `c`'s member list
  rw [hcmem, membersFor] at hin_c
  obtain ⟨n, hnfil, hnid⟩ := List.mem_map.mp hin_c
  obtain ⟨hn_ns, hpred⟩ := List.mem_filter.mp hnfil
  rw [Bool.and_eq_true, Bool.not_eq_true'] at hpred
  have hany := hpred.1
  rw [List.any_eq_false] at hany
  have hnotin_ch := hany ch.id hdc
  rw [hch_pref] at hnotin_ch
  simp only [Option.getD_some] at hnotin_ch
  -- but `nid` is in `ch`'s final member list, which is that same list
  rw [clusterMembers, hch_final, hch_pref] at hin_ch
  simp only [Option.getD_some] at hin_ch
  rw [hnid] at hnotin_ch
  exact hnotin_ch (by simpa using hin_ch)

/-- Witness for C2 (amended): with `exA` a direct child of `exB` and a
node inside both boxes, the node is not recorded in both member lists. -/
theorem c2_direct_child_no_duplicate_witness :
    ¬("n" ∈ clusterMembers [exA, exB] [⟨"n", 5, 5⟩] exB.id ∧
      "n" ∈ clusterMembers [exA, exB] [⟨"n", 5, 5⟩] exA.id) :=
  c2_direct_child_no_duplicate [exA, exB] [⟨"n", 5, 5⟩] exB exA "n"
    (by decide) (by decide) (by decide) (by decide) (by decide)

/-! ## C8: per-node fault isolation in `process_node` -/

theorem joinS_append : ∀ l1 l2 : List String,
    joinS (l1 ++ l2) = joinS l1 ++ joinS l2 := by
  intro l1 l2
  induction l1 with
  | nil => exact (String.empty_append _).symm
  | cons a l1 ih =>
    rw [List.cons_append, joinS, joinS, ih, String.append_assoc]

theorem mem_dropWhile_of_neg {p : Char → Bool} {c : Char} :
    ∀ {l : List Char}, c ∈ l → p c = false → c ∈ l.dropWhile p := by
  intro l
  induction l with
  | nil => intro h _; cases h
  | cons a l ih =>
    intro h hc
    rw [List.dropWhile_cons]
    cases hpa : p a with
    | true =>
      rw [if_pos rfl]
      rcases List.mem_cons.mp h with rfl | h'
      · rw [hpa] at hc; cases hc
      · exact ih h' hc
    | false =>
      rw [if_neg (by simp)]
      exact h

theorem pyStripL_ne_nil {c : Char} {l : List Char} (hc : c ∈ l)
    (hw : isPyWs c = false) : pyStripL l ≠ [] := by
  have h1 : c ∈ l.dropWhile isPyWs := mem_dropWhile_of_neg hc hw
  have h2 : c ∈ (l.dropWhile isPyWs).reverse := List.mem_reverse.mpr h1
  have h3 : c ∈ (l.dropWhile isPyWs).reverse.dropWhile isPyWs :=
    mem_dropWhile_of_neg h2 hw
  exact List.ne_nil_of_mem (List.mem_reverse.mpr h3)

theorem pyStrip_ne_empty {c : Char} {s : String} (hc : c ∈ s.data)
    (hw : isPyWs c = false) : pyStrip s ≠ "" := by
  intro h
  have hdata : (pyStrip s).data = [] := by rw [h]
  exact pyStripL_ne_nil hc hw hdata

/-- C8: a node whose dispatch raises is replaced, at that node, by the
inline error marker carrying its tag; the parent element's conversion
continues and contains the preceding siblings' normal output, the
marker, and the following siblings' normal output. -/
theorem c8_fault_isolation (cs1 cs2 : List RNode) (bk : String)
    (bcs : List RNode) (hbk : skipNames.contains bk = false) :
    process_node (.elem "div" false false
        (cs1 ++ RNode.elem bk false true bcs :: cs2)) =
      joinS (cs1.map process_node) ++ errorMarker bk ++
        joinS (cs2.map process_node) ++ "\n\n" := by
  have hbad : process_node (RNode.elem bk false true bcs) = errorMarker bk := by
    rw [process_node]
    rw [if_neg (by simp), if_neg (by rw [hbk]; exact Bool.false_ne_true),
      if_pos rfl]
  have hcontent :
      joinS ((cs1 ++ RNode.elem bk false true bcs :: cs2).map process_node) =
        joinS (cs1.map process_node) ++
          (errorMarker bk ++ joinS (cs2.map process_node)) := by
    rw [List.map_append, joinS_append, List.map_cons]
    rw [show joinS (process_node (RNode.elem bk false true bcs) ::
          cs2.map process_node) =
        process_node (RNode.elem bk false true bcs) ++
          joinS (cs2.map process_node) from rfl]
    rw [hbad]
  have hmem : '[' ∈ (joinS (cs1.map process_node) ++
      (errorMarker bk ++ joinS (cs2.map process_node))).data := by
    simp only [errorMarker, String.data_append, List.mem_append]
    have hbr : '[' ∈ "[ERROR_PROCESSING:".data := by decide
    tauto
  rw [process_node]
  rw [if_neg (by simp), if_neg (by decide), if_neg (by simp)]
  rw [List.attach_map_val
    (cs1 ++ RNode.elem bk false true bcs :: cs2) process_node]
  unfold emitElem
  rw [if_neg (by decide), if_neg (by decide), if_neg (by decide)]
  dsimp only
  rw [hcontent]
  rw [if_neg (pyStrip_ne_empty hmem (by decide))]
  simp only [String.append_assoc]

/-- Witness for C8: a concrete parent with one faulting `pre` child
between two text children. -/
theorem c8_fault_isolation_witness :
    process_node (.elem "div" false false
        ([RNode.text "x"] ++ RNode.elem "pre" false true [] ::
          [RNode.text "y"])) =
      joinS ([RNode.text "x"].map process_node) ++ errorMarker "pre" ++
        joinS ([RNode.text "y"].map process_node) ++ "\n\n" :=
  c8_fault_isolation [RNode.text "x"] [RNode.text "y"] "pre" [] (by decide)

/-! ## C9: idempotence of the Assembler's blank-line normalisation -/

theorem emitRun_cases (n : Nat) :
    emitRun n = [] ∨ emitRun n = ['\n'] ∨ emitRun n = ['\n', '\n'] := by
  rw [emitRun]
  split
  · exact Or.inr (Or.inr rfl)
  · next h =>
    interval_cases n
    · exact Or.inl rfl
    · exact Or.inr (Or.inl rfl)
    · exact Or.inr (Or.inr rfl)

theorem emitRun_zero : emitRun 0 = [] := rfl

theorem emitRun_ne_nil {n : Nat} (h : n ≠ 0) : emitRun n ≠ [] := by
  rw [emitRun]
  split
  · simp
  · simp [List.replicate_eq_nil_iff, h]

theorem hasTriple_cons_of_ne {c : Char} (hc : c ≠ '\n') :
    ∀ t : List Char, hasTriple (c :: t) = hasTriple t := by
  intro t
  match t with
  | [] => simp [hasTriple]
  | [d] => simp [hasTriple]
  | d :: e :: r => rw [hasTriple]; simp [hc]

theorem hasTriple_cons_cons_of_ne {c1 c2 : Char} (hc : c2 ≠ '\n') :
    ∀ t : List Char, hasTriple (c1 :: c2 :: t) = hasTriple (c2 :: t) := by
  intro t
  match t with
  | [] => simp [hasTriple]
  | d :: r => rw [hasTriple]; simp [hc]

theorem hasTriple_of_tail {c : Char} {t : List Char}
    (h : hasTriple t = true) : hasTriple (c :: t) = true := by
  match t with
  | [] => cases h
  | [d] => cases h
  | d :: e :: r => rw [hasTriple]; simp [h]

theorem hasTriple_append_right {l : List Char} (h : hasTriple l = true) :
    ∀ x : List Char, hasTriple (x ++ l) = true := by
  intro x
  induction x with
  | nil => exact h
  | cons c x ih => exact hasTriple_of_tail ih

theorem hasTriple_append_false {x l : List Char}
    (h : hasTriple (x ++ l) = false) : hasTriple l = false := by
  cases hl : hasTriple l with
  | false => rfl
  | true => rw [hasTriple_append_right hl x] at h; cases h

theorem hasTriple_replicate_ge3 {n : Nat} (h : 3 ≤ n) (l : List Char) :
    hasTriple (List.replicate n '\n' ++ l) = true := by
  obtain ⟨k, rfl⟩ : ∃ k, n = k + 3 := ⟨n - 3, by omega⟩
  rw [show k + 3 = 3 + k by omega, List.replicate_add]
  rw [List.append_assoc]
  rw [show List.replicate 3 '\n' = ['\n', '\n', '\n'] from rfl]
  rw [List.cons_append, List.cons_append, List.cons_append, List.nil_append]
  rw [hasTriple]
  simp

theorem replicate_snoc_cons (n : Nat) (cs : List Char) :
    List.replicate n '\n' ++ '\n' :: cs = List.replicate (n + 1) '\n' ++ cs := by
  rw [List.replicate_succ', List.append_assoc]
  rfl

theorem collapseGo_eq_self : ∀ (l : List Char) (n : Nat),
    hasTriple (List.replicate n '\n' ++ l) = false →
      collapseGo l n = List.replicate n '\n' ++ l := by
  intro l
  induction l with
  | nil =>
    intro n h
    have hn : n ≤ 2 := by
      by_contra hgt
      rw [hasTriple_replicate_ge3 (by omega)] at h
      cases h
    rw [collapseGo, emitRun, if_neg (by omega), List.append_nil]
  | cons c cs ih =>
    intro n h
    rw [collapseGo]
    by_cases hc : c = '\n'
    · subst hc
      rw [if_pos rfl]
      rw [replicate_snoc_cons] at h ⊢
      exact ih (n + 1) h
    · rw [if_neg hc]
      have hn : n ≤ 2 := by
        by_contra hgt
        rw [hasTriple_replicate_ge3 (by omega)] at h
        cases h
      have hcs : hasTriple cs = false := by
        have h1 : hasTriple (c :: cs) = false := hasTriple_append_false h
        have h2 := hasTriple_append_false (x := [c]) (l := cs)
        exact h2 h1
      rw [emitRun, if_neg (by omega)]
      rw [ih 0 (by simpa using hcs)]
      rfl

theorem collapse_eq_self {l : List Char} (h : hasTriple l = false) :
    collapse l = l := by
  have := collapseGo_eq_self l 0 (by simpa using h)
  simpa [collapse] using this

theorem collapseGo_ne_nil : ∀ (l : List Char) (n : Nat),
    l ≠ [] ∨ n ≠ 0 → collapseGo l n ≠ [] := by
  intro l
  induction l with
  | nil =>
    intro n h
    rcases h with h | h
    · exact absurd rfl h
    · exact emitRun_ne_nil h
  | cons c cs ih =>
    intro n _
    rw [collapseGo]
    by_cases hc : c = '\n'
    · rw [if_pos hc]
      exact ih (n + 1) (Or.inr (by omega))
    · rw [if_neg hc]
      intro hnil
      rcases List.append_eq_nil.mp hnil with ⟨_, h2⟩
      cases h2

theorem hasTriple_emitRun_cons {c : Char} {t : List Char} (hc : c ≠ '\n')
    (ht : hasTriple t = false) (n : Nat) :
    hasTriple (emitRun n ++ c :: t) = false := by
  rcases emitRun_cases n with he | he | he <;> rw [he]
  · rw [List.nil_append, hasTriple_cons_of_ne hc]
    exact ht
  · rw [List.cons_append, List.nil_append,
      hasTriple_cons_cons_of_ne hc, hasTriple_cons_of_ne hc]
    exact ht
  · rw [List.cons_append, List.cons_append, List.nil_append]
    rw [hasTriple]
    simp only [hc, decide_eq_true_eq]
    rw [hasTriple_cons_cons_of_ne hc, hasTriple_cons_of_ne hc, ht]
    simp

theorem hasTriple_collapseGo : ∀ (l : List Char) (n : Nat),
    hasTriple (collapseGo l n) = false := by
  intro l
  induction l with
  | nil =>
    intro n
    rw [collapseGo]
    rcases emitRun_cases n with he | he | he <;> rw [he] <;> rfl
  | cons c cs ih =>
    intro n
    rw [collapseGo]
    by_cases hc : c = '\n'
    · rw [if_pos hc]; exact ih (n + 1)
    · rw [if_neg hc]
      exact hasTriple_emitRun_cons hc (ih 0) n

theorem hasTriple_collapse (l : List Char) : hasTriple (collapse l) = false :=
  hasTriple_collapseGo l 0

theorem collapse_collapse (l : List Char) : collapse (collapse l) = collapse l :=
  collapse_eq_self (hasTriple_collapse l)

theorem collapse_head?_of_ne_nl {c : Char} {l : List Char}
    (h : l.head? = some c) (hc : c ≠ '\n') : (collapse l).head? = some c := by
  match l, h with
  | a :: cs, h =>
    rw [List.head?_cons] at h
    injection h with h
    subst h
    rw [collapse, collapseGo, if_neg hc, emitRun_zero, List.nil_append,
      List.head?_cons]

theorem collapse_getLast?_of_ne_nl : ∀ {l : List Char} {c : Char} (n : Nat),
    l.getLast? = some c → c ≠ '\n' → (collapseGo l n).getLast? = some c := by
  intro l
  induction l with
  | nil => intro c n h _; cases h
  | cons a cs ih =>
    intro c n h hc
    rw [collapseGo]
    by_cases ha : a = '\n'
    · rw [if_pos ha]
      match cs, h with
      | [], h =>
        subst ha
        rw [List.getLast?_singleton] at h
        injection h with h
        exact absurd h.symm hc
      | b :: cs', h =>
        rw [List.getLast?_cons_cons] at h
        exact ih (n + 1) h hc
    · rw [if_neg ha]
      match cs, h with
      | [], h =>
        rw [List.getLast?_singleton] at h
        injection h with h
        subst h
        rw [show collapseGo [] 0 = [] from rfl]
        rw [List.getLast?_append_of_ne_nil (emitRun n) (by simp)]
        rfl
      | b :: cs', h =>
        rw [List.getLast?_cons_cons] at h
        have hne : collapseGo (b :: cs') 0 ≠ [] :=
          collapseGo_ne_nil _ 0 (Or.inl (by simp))
        rw [List.getLast?_append_of_ne_nil (emitRun n)
          (by simp)]
        rw [show (a :: collapseGo (b :: cs') 0).getLast? =
            ([a] ++ collapseGo (b :: cs') 0).getLast? from rfl]
        rw [List.getLast?_append_of_ne_nil [a] hne]
        exact ih 0 h hc

theorem head?_dropWhile_neg {p : Char → Bool} :
    ∀ {l : List Char} {c : Char}, (l.dropWhile p).head? = some c → p c = false := by
  intro l
  induction l with
  | nil => intro c h; cases h
  | cons a cs ih =>
    intro c h
    rw [List.dropWhile_cons] at h
    split at h
    · exact ih h
    · next hpa =>
      rw [List.head?_cons] at h
      injection h with h
      subst h
      exact Bool.not_eq_true _ ▸ hpa

theorem dropWhile_eq_self_of_head {p : Char → Bool} {l : List Char}
    (h : ∀ c, l.head? = some c → p c = false) : l.dropWhile p = l := by
  match l with
  | [] => rfl
  | a :: cs =>
    rw [List.dropWhile_cons, if_neg]
    rw [h a (by rw [List.head?_cons])]
    simp

theorem pyStripL_head?_not_ws {l : List Char} {c : Char}
    (h : (pyStripL l).head? = some c) : isPyWs c = false := by
  rw [pyStripL, List.head?_reverse] at h
  -- `h : getLast? of (dropWhile from the reversed list) = some c`
  have hne : (l.dropWhile isPyWs).reverse.dropWhile isPyWs ≠ [] := by
    intro heq
    rw [heq] at h
    cases h
  have hsplit := List.takeWhile_append_dropWhile isPyWs
    (l.dropWhile isPyWs).reverse
  have hlast : ((l.dropWhile isPyWs).reverse.dropWhile isPyWs).getLast? =
      (l.dropWhile isPyWs).reverse.getLast? := by
    conv_rhs => rw [← hsplit]
    rw [List.getLast?_append_of_ne_nil _ hne]
  rw [hlast, List.getLast?_reverse] at h
  -- now `h` says `c` is the head of `l.dropWhile isPyWs`
  exact head?_dropWhile_neg h

theorem pyStripL_getLast?_not_ws {l : List Char} {c : Char}
    (h : (pyStripL l).getLast? = some c) : isPyWs c = false := by
  rw [pyStripL, List.getLast?_reverse] at h
  exact head?_dropWhile_neg h

theorem pyStripL_eq_self {l : List Char}
    (hh : ∀ c, l.head? = some c → isPyWs c = false)
    (hl : ∀ c, l.getLast? = some c → isPyWs c = false) : pyStripL l = l := by
  rw [pyStripL, dropWhile_eq_self_of_head hh]
  rw [dropWhile_eq_self_of_head (by
    intro c hc
    rw [List.head?_reverse] at hc
    exact hl c hc)]
  exact List.reverse_reverse l

/-- C9: the Assembler's normalisation — `strip` then collapse every run
of three-plus newlines to exactly two — is idempotent, and Scenario 6
holds: `"a\n\n\n\n\nb"` becomes `"a\n\nb"`. -/
theorem c9_normalize_idempotent :
    (∀ s : String, normalizeMd (normalizeMd s) = normalizeMd s) ∧
    normalizeMd "a\n\n\n\n\nb" = "a\n\nb" := by
  constructor
  · intro s
    show String.mk (collapse (pyStripL (collapse (pyStripL s.data)))) =
      String.mk (collapse (pyStripL s.data))
    congr 1
    by_cases hnil : pyStripL s.data = []
    · rw [hnil]
      rfl
    · have hstrip : pyStripL (collapse (pyStripL s.data)) =
          collapse (pyStripL s.data) := by
        apply pyStripL_eq_self
        · intro c hc
          -- the head of the collapsed stripped list is the stripped head
          obtain ⟨a, cs, hm⟩ : ∃ a cs, pyStripL s.data = a :: cs := by
            cases hx : pyStripL s.data with
            | nil => exact absurd hx hnil
            | cons a cs => exact ⟨a, cs, rfl⟩
          rw [hm] at hc
          have hha : isPyWs a = false := by
            apply pyStripL_head?_not_ws (l := s.data)
            rw [hm, List.head?_cons]
          have hanl : a ≠ '\n' := by
            intro hEq
            rw [hEq] at hha
            exact absurd hha (by decide)
          have hhead := collapse_head?_of_ne_nl
            (l := a :: cs) (by rw [List.head?_cons]) hanl
          rw [hhead] at hc
          injection hc with hc
          subst hc
          exact hha
        · intro c hc
          obtain ⟨d, hd⟩ : ∃ d, (pyStripL s.data).getLast? = some d := by
            cases hva : (pyStripL s.data).getLast? with
            | none => exact absurd (List.getLast?_eq_none_iff.mp hva) hnil
            | some d => exact ⟨d, rfl⟩
          have hdw : isPyWs d = false := pyStripL_getLast?_not_ws hd
          have hdnl : d ≠ '\n' := by
            intro hEq
            rw [hEq] at hdw
            exact absurd hdw (by decide)
          have := collapse_getLast?_of_ne_nl 0 hd hdnl
          rw [show collapseGo (pyStripL s.data) 0 = collapse (pyStripL s.data)
            from rfl] at this
          rw [this] at hc
          injection hc with hc
          subst hc
          exact hdw
      rw [hstrip, collapse_collapse]
  · decide

end WpMdWd
